import Mathlib

/-!
Verification of the Auto Mode orchestration engine
(`AutoModeService` in `apps/server/src/routes/worktree/routes/push.ts`).

The TypeScript source is shallowly embedded: JavaScript strings are
modelled as Lean `String` values manipulated through their underlying
`List Char` (JS string operations act on sequences of code units, which
for the inputs considered here coincide with Lean characters); the
mutable service state (the running-features registry, the feature store,
the context transcripts and the git worktree list) is threaded
explicitly; `async` functions become pure state transformers
parameterised by the behaviour of their external collaborators (the
agent event stream, git commands, the debounced write timer).
-/

namespace Automaker

/-! ## JavaScript string primitives

Models of the JS string methods used by the source, implemented over
`String.data` so that every operation is executable and provable by
kernel reduction. -/

/-- Model of JS `s.startsWith(pre)`. -/
def jsStartsWith (s pre : String) : Bool := pre.data.isPrefixOf s.data

/-- Model of JS `s.endsWith(suf)`. -/
def jsEndsWith (s suf : String) : Bool := suf.data.isSuffixOf s.data

/-- Model of JS `s.slice(n)` (drop the first `n` code units). -/
def jsSlice (s : String) (n : Nat) : String := ⟨s.data.drop n⟩

/-- Model of JS `s.substring(0, n)` (keep the first `n` code units). -/
def jsSubstring (s : String) (n : Nat) : String := ⟨s.data.take n⟩

/-- Model of JS `s.length`. -/
def jsLen (s : String) : Nat := s.data.length

/-- Infix test used to model JS `s.includes(pat)`. -/
def listInfixTest (pat : List Char) : List Char → Bool
  | [] => pat.isPrefixOf []
  | c :: t => pat.isPrefixOf (c :: t) || listInfixTest pat t

/-- Model of JS `s.includes(pat)`. -/
def jsIncludes (s pat : String) : Bool := listInfixTest pat.data s.data

/-- JS whitespace characters relevant to `String.prototype.trim` for the
inputs considered here. -/
def jsWhite (c : Char) : Bool := c = ' ' || c = '\t' || c = '\n' || c = '\r'

/-- Model of JS `s.trim()`. -/
def jsTrim (s : String) : String :=
  ⟨((s.data.dropWhile jsWhite).reverse.dropWhile jsWhite).reverse⟩

/-- Model of JS `s.split("\n")[0]`: the prefix of `s` before the first
newline (the whole string when `s` has no newline). -/
def jsFirstLine (s : String) : String := ⟨s.data.takeWhile (fun c => c ≠ '\n')⟩

/-- One-shot replacement on code-unit lists: replace the first occurrence
of `pat` by `rep`. -/
def jsReplaceOnceData (pat rep : List Char) : List Char → List Char
  | [] => if pat.isPrefixOf ([] : List Char) then rep else []
  | c :: t =>
    if pat.isPrefixOf (c :: t) then rep ++ (c :: t).drop pat.length
    else c :: jsReplaceOnceData pat rep t

/-- Model of JS `s.replace(pat, rep)` with a string pattern, which
replaces only the first occurrence. -/
def jsReplaceOnce (s pat rep : String) : String :=
  ⟨jsReplaceOnceData pat.data rep.data s.data⟩

/-! ## Commit titles (`extractTitleFromDescription`, push.ts lines 957-970) -/

/-- Port of `AutoModeService.extractTitleFromDescription`:

```ts
if (!description || !description.trim()) return "Untitled Feature";
const firstLine = description.split("\n")[0].trim();
if (firstLine.length <= 60) return firstLine;
return firstLine.substring(0, 57) + "...";
```

JS truthiness of a string is non-emptiness. -/
def extractTitleFromDescription (description : String) : String :=
  if description = "" || jsTrim description = "" then "Untitled Feature"
  else
    let firstLine := jsTrim (jsFirstLine description)
    if jsLen firstLine ≤ 60 then firstLine
    else jsSubstring firstLine 57 ++ "..."

/-! ## Path model

Node `path` functions are modelled for normalized POSIX-style paths,
which is the regime the worktree theorems hypothesise (an absolute,
normalized `projectPath`). -/

/-- Model of Node `path.isAbsolute` for POSIX-style paths. -/
def pathIsAbsolute (p : String) : Bool := jsStartsWith p "/"

/-- Model of Node `path.join(a, b)` for normalized segments. -/
def pathJoin (a b : String) : String := a ++ "/" ++ b

/-- Model of Node `path.resolve(p)` for an already-absolute, normalized
path, on which it is the identity. -/
def pathResolve (p : String) : String := p

/-- Model of
`path.isAbsolute(p) ? path.resolve(p) : path.resolve(projectPath, p)`
(push.ts lines 831-833 and 844-846). -/
def resolveWorktreeEntryPath (projectPath p : String) : String :=
  if pathIsAbsolute p then pathResolve p else projectPath ++ "/" ++ p

/-! ## Worktree manager (push.ts lines 807-908)

The relevant version-control state: the worktree list (path-branch
pairs, as reported by `git worktree list`), the set of local branches,
and the set of existing directories (`fs.access`/`fs.mkdir`). -/

structure GitState where
  worktrees : List (String × String)
  branches : List String
  dirs : List String
deriving Repr, DecidableEq

/-- JS truthiness of the nullable string variables `currentPath` and
`currentBranch` in the parsing loop: `null` and `""` are falsy. -/
def truthy : Option String → Bool
  | none => false
  | some s => s ≠ ""

/-- The lines contributed by one worktree to the stdout of
`git worktree list --porcelain`: a `worktree <path>` line, a `HEAD <sha>`
line, a `branch refs/heads/<name>` line, and a blank separator line. -/
def worktreeEntryLines (pb : String × String) : List String :=
  ["worktree " ++ pb.1,
   "HEAD 0000000000000000000000000000000000000000",
   "branch refs/heads/" ++ pb.2,
   ""]

def worktreeEntriesLines (wts : List (String × String)) : List String :=
  (wts.map worktreeEntryLines).flatten

/-- Model of `stdout.split("\n")` applied to the porcelain output: the
entry lines followed by one final empty string coming from the trailing
newline.  Adequate when paths and branch names contain no newline. -/
def porcelainLines (wts : List (String × String)) : List String :=
  worktreeEntriesLines wts ++ [""]

/-- Port of the line-scanning loop of
`AutoModeService.findExistingWorktreeForBranch` (push.ts lines 816-850),
including the post-loop check for a last entry when the output does not
end with a newline (lines 842-848). -/
def findWorktreeScan (projectPath branchName : String) :
    List String → Option String → Option String → Option String
  | [], currentPath, currentBranch =>
    -- JS short-circuit `cp && cb && cb === bn` rendered as nested ifs
    if truthy currentPath && truthy currentBranch then
      if currentBranch.getD "" = branchName then
        some (resolveWorktreeEntryPath projectPath (currentPath.getD ""))
      else none
    else none
  | line :: rest, currentPath, currentBranch =>
    if jsStartsWith line "worktree " then
      findWorktreeScan projectPath branchName rest
        (some (jsSlice line 9)) currentBranch
    else if jsStartsWith line "branch " then
      findWorktreeScan projectPath branchName rest currentPath
        (some (jsReplaceOnce (jsSlice line 7) "refs/heads/" ""))
    else if line = "" then
      -- JS `line === "" && currentPath && currentBranch`: when the
      -- truthiness conjuncts fail the whole condition fails and the
      -- loop continues with the state unchanged
      if truthy currentPath && truthy currentBranch then
        if currentBranch.getD "" = branchName then
          some (resolveWorktreeEntryPath projectPath (currentPath.getD ""))
        else findWorktreeScan projectPath branchName rest none none
      else findWorktreeScan projectPath branchName rest currentPath currentBranch
    else
      findWorktreeScan projectPath branchName rest currentPath currentBranch

/-- Port of `AutoModeService.findExistingWorktreeForBranch` (push.ts
lines 807-854).  The external `git worktree list --porcelain` command is
modelled as succeeding with the porcelain rendering of `git.worktrees`;
on command failure the source returns null. -/
def findExistingWorktreeForBranch (git : GitState)
    (projectPath branchName : String) : Option String :=
  findWorktreeScan projectPath branchName (porcelainLines git.worktrees)
    none none

/-- Add an element to a set-like list if not already present (used for
`fs.mkdir`, `git branch` and `git worktree add` effects). -/
def insertNew (l : List String) (x : String) : List String :=
  if x ∈ l then l else l ++ [x]

structure SetupWorktreeResult where
  path : String
  git : GitState
  worktreeAdds : Nat
deriving Repr, DecidableEq

/-- Port of `AutoModeService.setupWorktree` (push.ts lines 856-908).
`addOk` is the success of the external `git worktree add` command;
`worktreeAdds` counts how many times that command was invoked. -/
def setupWorktree (git : GitState) (addOk : Bool)
    (projectPath featureId branchName : String) : SetupWorktreeResult :=
  -- First, check whether git already has a worktree for this branch
  match findExistingWorktreeForBranch git projectPath branchName with
  | some existingWorktree => ⟨existingWorktree, git, 0⟩
  | none =>
    let worktreesDir := pathJoin projectPath ".worktrees"
    let worktreePath := pathJoin worktreesDir featureId
    -- fs.mkdir(worktreesDir, recursive)
    let git1 : GitState := { git with dirs := insertNew git.dirs worktreesDir }
    -- Check if the worktree directory already exists (might not be linked)
    if worktreePath ∈ git1.dirs then
      ⟨pathResolve worktreePath, git1, 0⟩
    else
      -- `git branch <name>` — "branch may already exist" errors ignored
      let git2 : GitState :=
        { git1 with branches := insertNew git1.branches branchName }
      if addOk then
        let git3 : GitState :=
          { git2 with
              worktrees := git2.worktrees ++ [(worktreePath, branchName)],
              dirs := insertNew git2.dirs worktreePath }
        ⟨pathResolve worktreePath, git3, 1⟩
      else
        -- worktree creation failed: fall back to the main project path
        ⟨pathResolve projectPath, git2, 0⟩

/-! ## Feature records (`feature-loader.ts` shape; fields the engine uses) -/

structure Feature where
  id : String := ""
  description : String := ""
  spec : Option String := none
  branchName : Option String := none
  model : Option String := none
  status : String := "backlog"
  justFinishedAt : Option Nat := none
  updatedAt : Option Nat := none
deriving Repr, DecidableEq

/-! ## Feature verification (`verifyFeature`, push.ts lines 522-582) -/

structure CheckResult where
  check : String
  passed : Bool
  output : String
deriving Repr, DecidableEq

/-- The fixed ordered verification command sequence (push.ts 538-543). -/
def verificationChecks : List (String × String) :=
  [("npm run lint", "Lint"),
   ("npm run typecheck", "Type check"),
   ("npm test", "Tests"),
   ("npm run build", "Build")]

/-- The working directory chosen by `verifyFeature` (push.ts 526-535):
the conventional worktree directory when it exists, else the project
tree. -/
def verifyWorkDir (dirs : List String) (projectPath featureId : String) :
    String :=
  let worktreePath := pathJoin (pathJoin projectPath ".worktrees") featureId
  if worktreePath ∈ dirs then worktreePath else projectPath

/-- Model of JS `x?.f || d` applied to an optional string: `undefined`
and the empty string both fall back to the default. -/
def jsOrElse (s : Option String) (d : String) : String :=
  match s with
  | none => d
  | some c => if c = "" then d else c

/-- The check loop of `verifyFeature` (push.ts 549-569): run each command
in order, record a `CheckResult`, and `break` on the first failure.
`execCmd` gives the outcome of `execAsync` for each command in the chosen
working directory: `.ok (stdout, stderr)` on success, `.error message`
when the command throws.  Also returns the list of commands actually
spawned. -/
def runVerificationChecks
    (execCmd : String → Except String (String × String)) :
    List (String × String) → Bool × List CheckResult × List String
  | [] => (true, [], [])
  | (cmd, checkName) :: rest =>
    match execCmd cmd with
    | .ok (out, errOut) =>
      let (allPassed, results, invoked) := runVerificationChecks execCmd rest
      (allPassed,
       ⟨checkName, true, if out = "" then errOut else out⟩ :: results,
       cmd :: invoked)
    | .error msg =>
      (false, [⟨checkName, false, msg⟩], [cmd])

structure VerifyOutcome where
  passes : Bool
  message : String
  invoked : List String
  results : List CheckResult
deriving Repr, DecidableEq

/-- Port of `AutoModeService.verifyFeature` (push.ts 522-582).  `passes`
is the returned boolean; `message` is the message of the
`auto_mode_feature_complete` event emitted at the end (push.ts 571-579). -/
def verifyFeature (execCmd : String → Except String (String × String)) :
    VerifyOutcome :=
  let (allPassed, results, invoked) :=
    runVerificationChecks execCmd verificationChecks
  { passes := allPassed
    message :=
      if allPassed then "All verification checks passed"
      else "Verification failed: "
        ++ jsOrElse ((results.find? fun r => !r.passed).map fun r => r.check)
            "Unknown"
    invoked := invoked
    results := results }

/-! ## Committing (`commitFeature`, push.ts lines 590-665) -/

/-- The external-command environment of `commitFeature`: each git command
outcome, as a function of the working directory it runs in (`git commit`
additionally as a function of the message).  `.error` means the command
threw. -/
structure CommitEnv where
  dirs : List String
  feature : Option Feature
  statusOut : String → Except String String
  addOutcome : String → Except String Unit
  commitOutcome : String → String → Except String Unit
  revParseOut : String → Except String String

/-- Working-directory resolution of `commitFeature` (push.ts 595-624):
explicitly provided worktree path (when it exists) → legacy conventional
location (when it exists) → project root. -/
def commitWorkDir (env : CommitEnv) (projectPath featureId : String)
    (providedWorktreePath : Option String) : String :=
  match providedWorktreePath with
  | some p => if p ∈ env.dirs then p else projectPath
  | none =>
    let legacy := pathJoin (pathJoin projectPath ".worktrees") featureId
    if legacy ∈ env.dirs then legacy else projectPath

/-- Commit message construction (push.ts 636-641). -/
def commitMessageOf (feature : Option Feature) (featureId : String) :
    String :=
  match feature with
  | some f =>
    "feat: " ++ extractTitleFromDescription f.description
      ++ "\n\nImplemented by Automaker auto-mode"
  | none => "feat: Feature " ++ featureId

/-- The try-block of `commitFeature` (push.ts 626-660) as an
`Except`-valued computation: `.error` is a thrown exception.  Shell
quoting of the message is elided (it does not change the outcome model). -/
def commitFeatureTry (env : CommitEnv) (projectPath featureId : String)
    (providedWorktreePath : Option String) :
    Except String (Option String) :=
  let workDir := commitWorkDir env projectPath featureId providedWorktreePath
  match env.statusOut workDir with
  | .error e => .error e
  | .ok status =>
    if jsTrim status = "" then .ok none  -- no changes: return null
    else
      match env.addOutcome workDir with
      | .error e => .error e
      | .ok _ =>
        match env.commitOutcome workDir
            (commitMessageOf env.feature featureId) with
        | .error e => .error e
        | .ok _ =>
          match env.revParseOut workDir with
          | .error e => .error e
          | .ok hash => .ok (some (jsTrim hash))

/-- Port of `AutoModeService.commitFeature` (push.ts 590-665).  The
surrounding try/catch (lines 661-664) logs any thrown error and returns
`null`: a `.error` can never escape. -/
def commitFeature (env : CommitEnv) (projectPath featureId : String)
    (providedWorktreePath : Option String) : Except String (Option String) :=
  match commitFeatureTry env projectPath featureId providedWorktreePath with
  | .ok r => .ok r
  | .error _ => .ok none

/-! ## Agent events and the streaming loop (`runAgent`, push.ts 1046-1270) -/

/-- Modelled from the spec: `classifyError` and `isAbortError` live in
`lib/error-handler.js`, which is not under `src/`.  Per the spec (§7), a
thrown failure is classified as a cooperative abort, an authentication
failure (credential signals), or a generic execution failure.  In this
embedding a thrown error is represented directly by its class. -/
inductive ErrClass
  | abortError
  | authError
  | execError
deriving Repr, DecidableEq

/-- A content block of an `assistant` stream message.  `input` of a tool
use is the pretty-printed JSON payload when present (JS truthiness:
absent means falsy). -/
inductive ContentBlock
  | text (s : String)
  | toolUse (toolName : String) (input : Option String)
deriving Repr, DecidableEq

/-- A typed event of the agent stream, as consumed by `runAgent`. -/
inductive AgentMsg
  | assistant (content : List ContentBlock)
  | errorMsg (error : Option String)
  | result (subtype : String) (res : Option String)
deriving Repr, DecidableEq

/-- The auto-mode events emitted through `emitAutoModeEvent` that the
modelled operations produce. -/
inductive AmEvent
  | featureStart (featureId : String)
  | progress (featureId content : String)
  | toolUse (featureId toolName : String)
  | featureComplete (featureId : String) (passes : Bool) (message : String)
  | errorEvent (featureId : String) (errorType : Option String)
      (message : String)
deriving Repr, DecidableEq

/-- The authentication-error text check on assistant text blocks
(push.ts 1211-1216). -/
def isAuthErrorText (s : String) : Bool :=
  jsIncludes s "Invalid API key" || jsIncludes s "authentication_failed"
    || jsIncludes s "Fix external API key"

/-- Modelled from the spec: the error thrown for a `type: "error"` stream
event (`throw new Error(msg.error || "Unknown error")`, push.ts
1253-1255) is a fresh `Error`, hence not an abort; per the spec's error
taxonomy it is an authentication failure when the message carries
credential signals and an execution failure otherwise. -/
def classifyStreamError (error : Option String) : ErrClass :=
  if isAuthErrorText (jsOrElse error "Unknown error") then .authError
  else .execError

/-- Text-block accumulation with separators (push.ts 1199-1208): insert
a blank line before new text unless the buffer already ends in one. -/
def appendTextBlock (responseText s : String) : String :=
  (if jsLen responseText > 0 && !(jsEndsWith responseText "\n\n") then
    if jsEndsWith responseText "\n" then responseText ++ "\n"
    else responseText ++ "\n\n"
  else responseText) ++ s

/-- Tool-use block rendering (push.ts 1238-1249): a labeled block with
the tool name, plus the payload when present. -/
def appendToolBlock (responseText toolName : String)
    (input : Option String) : String :=
  ((if jsLen responseText > 0 && !(jsEndsWith responseText "\n") then
      responseText ++ "\n"
    else responseText)
    ++ "\n🔧 Tool: " ++ toolName ++ "\n")
    ++ (match input with
        | some payload => "Input: " ++ payload ++ "\n"
        | none => "")

/-- The mutable state of one `runAgent` stream consumption: the
accumulated in-memory transcript, the persisted file content (`none`
when the output file has never been written), whether a debounced write
is scheduled, and the events emitted so far. -/
structure AgentRunState where
  buffer : String
  file : Option String
  pending : Bool
  events : List AmEvent
deriving Repr, DecidableEq

/-- Process one content block of an assistant message (push.ts
1198-1251).  Returns the new state and, when the block throws (the
authentication check, which fires after the text is appended but before
`scheduleWrite` and the progress event), the thrown error class. -/
def processBlock (featureId : String) (st : AgentRunState) :
    ContentBlock → AgentRunState × Option ErrClass
  | .text s =>
    if s ≠ "" && isAuthErrorText s then
      ({ st with buffer := appendTextBlock st.buffer s }, some .authError)
    else
      ({ st with buffer := appendTextBlock st.buffer s, pending := true,
                 events := st.events ++ [.progress featureId s] }, none)
  | .toolUse toolName input =>
    -- the tool event is emitted first (1231-1236), then the block is
    -- appended to the buffer and a write scheduled (1238-1250)
    ({ st with buffer := appendToolBlock st.buffer toolName input,
               pending := true,
               events := st.events ++ [.toolUse featureId toolName] }, none)

def processBlocks (featureId : String) (st : AgentRunState) :
    List ContentBlock → AgentRunState × Option ErrClass
  | [] => (st, none)
  | b :: rest =>
    match processBlock featureId st b with
    | (st1, none) => processBlocks featureId st1 rest
    | (st1, some e) => (st1, some e)

/-- Process one stream event (push.ts 1196-1262). -/
def processMsg (featureId : String) (st : AgentRunState) :
    AgentMsg → AgentRunState × Option ErrClass
  | .assistant blocks => processBlocks featureId st blocks
  | .errorMsg err => (st, some (classifyStreamError err))
  | .result subtype _ =>
    -- on a success result the accumulated text is kept (not replaced)
    -- and a write is scheduled (1256-1261)
    if subtype = "success" then ({ st with pending := true }, none)
    else (st, none)

/-- One possible firing of the debounced write between two stream
events: the 500ms timer scheduled by `scheduleWrite` can run at any
`await` point of the `for await` loop; `fire` says whether it does before
the next event.  `writeToFile` (push.ts 1173-1184) persists the current
buffer (write errors are logged and swallowed; the successful write is
modelled). -/
def debounceStep (fire : Bool) (st : AgentRunState) : AgentRunState :=
  if st.pending && fire then
    { st with file := some st.buffer, pending := false }
  else st

def runAgentLoop (featureId : String) (st : AgentRunState) :
    List AgentMsg → List Bool → AgentRunState × Option ErrClass
  | [], _ => (st, none)
  | m :: rest, sched =>
    match processMsg featureId st m with
    | (st1, some e) => (st1, some e)
    | (st1, none) =>
      runAgentLoop featureId (debounceStep (sched.headD false) st1) rest
        sched.tail

structure AgentRunResult where
  buffer : String
  file : Option String
  events : List AmEvent
  outcome : Option ErrClass
deriving Repr, DecidableEq

/-- The initial buffer (push.ts 1159-1162):

```ts
let responseText = previousContent
  ? `${previousContent}\n\n---\n\n## Follow-up Session\n\n`
  : "";
```

JS truthiness: both an absent `previousContent` and the empty string are
falsy, so an empty previous transcript seeds an empty buffer with no
separator. -/
def seedBuffer (previousContent : Option String) : String :=
  match previousContent with
  | some prev =>
    if prev = "" then ""
    else prev ++ "\n\n---\n\n## Follow-up Session\n\n"
  | none => ""

/-- Port of the streaming part of `AutoModeService.runAgent` (push.ts
1046-1270), non-mock path (`AUTOMAKER_MOCK_AGENT` unset).  `msgs` are the
stream events delivered before the stream ended; `streamEnd = some c`
means iterating the stream itself threw (provider failure, or an
`AbortError` after cancellation); `sched` fixes when the debounced write
timer fires.  On normal completion the pending timer is cleared and one
final `writeToFile` persists the full buffer (1264-1269); when the loop
or the stream throws, `runAgent` is exited by the exception and no final
write happens. -/
def runAgent (featureId : String) (previousContent : Option String)
    (initFile : Option String) (msgs : List AgentMsg)
    (streamEnd : Option ErrClass) (sched : List Bool) : AgentRunResult :=
  let st0 : AgentRunState := ⟨seedBuffer previousContent, initFile, false, []⟩
  match runAgentLoop featureId st0 msgs sched with
  | (st, some e) => ⟨st.buffer, st.file, st.events, some e⟩
  | (st, none) =>
    match streamEnd with
    | some e => ⟨st.buffer, st.file, st.events, some e⟩
    | none => ⟨st.buffer, some st.buffer, st.events, none⟩

/-! ## The Auto Mode engine state (`AutoModeService`, push.ts 95-111)

The mutable state touched by the engine: the running-features registry
(`Map` keyed by feature id), the feature store (one `feature.json` per
feature id under the `.automaker` directory, accessed through
`loadFeature` / `updateFeatureStatus`), the context transcripts (one
`agent-output.md` per feature id), and the git state.
`getFeatureDir` / `getAutomakerDir` (`lib/automaker-paths.js`, not under
`src/`) only fix where these files live on disk, so both stores are
keyed directly by feature id here. -/

/-- One execution record of the registry (push.ts 95-103).  The
`AbortController` is modelled by its `aborted` flag. -/
structure RunningFeature where
  featureId : String
  projectPath : String
  worktreePath : Option String
  branchName : Option String
  aborted : Bool
  isAutoMode : Bool
  startTime : Nat
deriving Repr, DecidableEq

structure SysState where
  registry : List (String × RunningFeature)
  features : List (String × Feature)
  transcripts : List (String × String)
  git : GitState
  now : Nat
deriving Repr, DecidableEq

/-- Association-list lookup (`Map.get` / reading a per-key file). -/
def alookup {α : Type} : List (String × α) → String → Option α
  | [], _ => none
  | kv :: t, k => if kv.1 = k then some kv.2 else alookup t k

/-- `Map.set` / writing a per-key file: overwrite the entry when the key
is present (the state lists always hold one entry per key), append
otherwise. -/
def aset {α : Type} : List (String × α) → String → α → List (String × α)
  | [], k, v => [(k, v)]
  | kv :: t, k, v => if kv.1 = k then (k, v) :: t else kv :: aset t k v

/-- `Map.delete` semantics. -/
def aerase {α : Type} : List (String × α) → String → List (String × α)
  | [], _ => []
  | kv :: t, k => if kv.1 = k then aerase t k else kv :: aerase t k

/-- Port of `AutoModeService.updateFeatureStatus` (push.ts 926-952):
rewrite the status, refresh `updatedAt`, and set `justFinishedAt` only
when moving to `waiting_approval` (clearing it otherwise); a missing
feature file makes the whole update a no-op (the catch at 949-951). -/
def updateFeatureStatus (st : SysState) (featureId status : String) :
    SysState :=
  match alookup st.features featureId with
  | none => st
  | some f =>
    let f1 : Feature :=
      { f with status := status, updatedAt := some st.now,
               justFinishedAt :=
                 if status = "waiting_approval" then some st.now else none }
    { st with features := aset st.features featureId f1 }

/-- Model of JS `x || null` on a nullable string (`feature.branchName ||
null`, push.ts 162): the empty string is falsy. -/
def jsStringOrNull : Option String → Option String
  | some v => if v = "" then none else some v
  | none => none

/-- The agent behaviour one run encounters: the stream events delivered,
whether stream iteration itself threw (cancellation or provider
failure), the debounce firing schedule, and whether `git worktree add`
succeeds when a worktree has to be created. -/
structure AgentBehavior where
  msgs : List AgentMsg
  streamEnd : Option ErrClass
  sched : List Bool
  addOk : Bool
deriving Repr, DecidableEq

/-- An element of a run's observable trace: an emitted auto-mode event,
or a feature-status write. -/
inductive Action
  | emitEvent (e : AmEvent)
  | setStatus (featureId status : String)
deriving Repr, DecidableEq

/-- The worktree resolution of a run (push.ts 161-183): when worktrees
are enabled and a branch is assigned, look the branch up first and only
then create. -/
def resolveRunWorktree (st : SysState) (beh : AgentBehavior)
    (projectPath featureId : String) (useWorktrees : Bool)
    (branchName : Option String) : Option String × GitState :=
  match useWorktrees, branchName with
  | true, some bn =>
    match findExistingWorktreeForBranch st.git projectPath bn with
    | some p => (some p, st.git)
    | none =>
      let r := setupWorktree st.git beh.addOk projectPath featureId bn
      (some r.path, r.git)
  | _, _ => (none, st.git)

/-- Event type carried by `auto_mode_error` (push.ts 256-261). -/
def errClassEventType (c : ErrClass) : String :=
  match c with
  | .authError => "authentication"
  | _ => "execution"

/-- Modelled from the spec: `classifyError(...).message`
(`lib/error-handler.js`, not under `src/`) is the human-readable message
of the thrown error; no claim depends on its exact text, so it is
rendered from the class. -/
def errClassMessage (c : ErrClass) : String :=
  match c with
  | .abortError => "Aborted"
  | .authError => "Authentication failed"
  | .execError => "Execution failed"

/-- The outcome of one engine operation: the final state, the observable
trace, the promise outcome (`.error` is a rejection — only the
`AlreadyRunning` gate rejects; every in-try failure is caught), and what
the agent run returned (`none` when the agent never ran, e.g. `NotFound`
or `AlreadyRunning`). -/
structure RunOutput where
  state : SysState
  trace : List Action
  result : Except String Unit
  agentOutcome : Option (Option ErrClass)

/-- The shared body of `executeFeature` (push.ts 139-266, fresh:
`context = none`) and `executeFeatureWithContext` (push.ts 1282-1412,
`context = some c`), which are line-for-line parallel in everything
modelled here: emit `feature_start`; load the feature (`NotFound` throws
into the catch); resolve the worktree; insert the execution record;
set `in_progress`; run the agent; on success set `waiting_approval` and
emit completion; on abort emit a neutral completion without touching the
status; on any other failure revert to `backlog` and emit an error event;
in `finally`, delete the registry entry.  The completion message's
elapsed-seconds interpolation is abstracted to the given constant. -/
def executeCore (st : SysState) (projectPath featureId : String)
    (useWorktrees isAutoMode : Bool) (context : Option String)
    (successMsg : String) (beh : AgentBehavior) : RunOutput :=
  match alookup st.features featureId with
  | none =>
    let st1 := updateFeatureStatus st featureId "backlog"
    { state := { st1 with registry := aerase st1.registry featureId }
      trace := [.emitEvent (.featureStart featureId),
                .setStatus featureId "backlog",
                .emitEvent (.errorEvent featureId (some "execution")
                  ("Feature " ++ featureId ++ " not found"))]
      result := .ok ()
      agentOutcome := none }
  | some feature =>
    let branchName := jsStringOrNull feature.branchName
    let wres := resolveRunWorktree st beh projectPath featureId useWorktrees
      branchName
    let rf : RunningFeature :=
      ⟨featureId, projectPath, wres.1, branchName, false, isAutoMode, st.now⟩
    let stR := { st with git := wres.2,
                         registry := aset st.registry featureId rf }
    let stP := updateFeatureStatus stR featureId "in_progress"
    let r := runAgent featureId context (alookup stP.transcripts featureId)
      beh.msgs beh.streamEnd beh.sched
    let stT := { stP with transcripts :=
      match r.file with
      | some content => aset stP.transcripts featureId content
      | none => stP.transcripts }
    match r.outcome with
    | none =>
      let stW := updateFeatureStatus stT featureId "waiting_approval"
      { state := { stW with registry := aerase stW.registry featureId }
        trace := [.emitEvent (.featureStart featureId),
                  .setStatus featureId "in_progress"]
          ++ r.events.map Action.emitEvent
          ++ [.setStatus featureId "waiting_approval",
              .emitEvent (.featureComplete featureId true successMsg)]
        result := .ok ()
        agentOutcome := some none }
    | some .abortError =>
      { state := { stT with registry := aerase stT.registry featureId }
        trace := [.emitEvent (.featureStart featureId),
                  .setStatus featureId "in_progress"]
          ++ r.events.map Action.emitEvent
          ++ [.emitEvent (.featureComplete featureId false
              "Feature stopped by user")]
        result := .ok ()
        agentOutcome := some (some .abortError) }
    | some c =>
      let stB := updateFeatureStatus stT featureId "backlog"
      { state := { stB with registry := aerase stB.registry featureId }
        trace := [.emitEvent (.featureStart featureId),
                  .setStatus featureId "in_progress"]
          ++ r.events.map Action.emitEvent
          ++ [.setStatus featureId "backlog",
              .emitEvent (.errorEvent featureId
                (some (errClassEventType c)) (errClassMessage c))]
        result := .ok ()
        agentOutcome := some (some c) }

/-- Port of `AutoModeService.executeFeatureWithContext` (push.ts
1272-1412): gate on the registry, then run with `previousContent`
seeded from the saved transcript. -/
def executeFeatureWithContext (st : SysState)
    (projectPath featureId context : String) (useWorktrees : Bool)
    (beh : AgentBehavior) : RunOutput :=
  if (alookup st.registry featureId).isSome then
    { state := st, trace := [],
      result := .error ("Feature " ++ featureId ++ " is already running"),
      agentOutcome := none }
  else
    executeCore st projectPath featureId useWorktrees false (some context)
      "Feature resumed and completed" beh

/-- Port of `AutoModeService.resumeFeature` (push.ts 284-314): read the
transcript if it exists and continue from it; otherwise start fresh via
`executeFeature(projectPath, featureId, useWorktrees, false)` — inlined
here: with no transcript, `executeFeature`'s own context check fails and
it takes its fresh path. -/
def resumeFeature (st : SysState) (projectPath featureId : String)
    (useWorktrees : Bool) (beh : AgentBehavior) : RunOutput :=
  match alookup st.transcripts featureId with
  | some context =>
    executeFeatureWithContext st projectPath featureId context useWorktrees
      beh
  | none =>
    if (alookup st.registry featureId).isSome then
      { state := st, trace := [],
        result := .error ("Feature " ++ featureId ++ " is already running"),
        agentOutcome := none }
    else
      executeCore st projectPath featureId useWorktrees false none
        "Feature completed" beh

/-- Port of `AutoModeService.executeFeature` (push.ts 120-266): reject
with `AlreadyRunning` when the registry holds the id (before any side
effect); delegate to `resumeFeature` when a transcript exists; otherwise
run fresh. -/
def executeFeature (st : SysState) (projectPath featureId : String)
    (useWorktrees isAutoMode : Bool) (beh : AgentBehavior) : RunOutput :=
  if (alookup st.registry featureId).isSome then
    { state := st, trace := [],
      result := .error ("Feature " ++ featureId ++ " is already running"),
      agentOutcome := none }
  else if (alookup st.transcripts featureId).isSome then
    resumeFeature st projectPath featureId useWorktrees beh
  else
    executeCore st projectPath featureId useWorktrees isAutoMode none
      "Feature completed" beh

/-- Port of `AutoModeService.stopFeature` (push.ts 271-279): `false`
when the id is not in the registry; otherwise signal the stored abort
handle and return `true`.  The registry entry is not removed. -/
def stopFeature (st : SysState) (featureId : String) : Bool × SysState :=
  match alookup st.registry featureId with
  | none => (false, st)
  | some rf =>
    let rf1 : RunningFeature := { rf with aborted := true }
    (true, { st with registry := aset st.registry featureId rf1 })

structure StatusInfo where
  isRunning : Bool
  runningFeatures : List String
  runningCount : Nat
deriving Repr, DecidableEq

/-- Port of `AutoModeService.getStatus` (push.ts 773-783). -/
def getStatus (st : SysState) : StatusInfo :=
  { isRunning := decide (st.registry.length > 0)
    runningFeatures := st.registry.map fun kv => kv.1
    runningCount := st.registry.length }

/-- Trace predicate for claim C3: no `progress` or `tool` event for the
feature occurs before the feature's status is set to `in_progress`. -/
def agentEventsAfterInProgress (featureId : String) : List Action → Bool
  | [] => true
  | .setStatus f s :: rest =>
    if f = featureId ∧ s = "in_progress" then true
    else agentEventsAfterInProgress featureId rest
  | .emitEvent (.progress f _) :: rest =>
    if f = featureId then false
    else agentEventsAfterInProgress featureId rest
  | .emitEvent (.toolUse f _) :: rest =>
    if f = featureId then false
    else agentEventsAfterInProgress featureId rest
  | _ :: rest => agentEventsAfterInProgress featureId rest

def isSetStatus : Action → Bool
  | .setStatus _ _ => true
  | _ => false

/-- The persisted status of a feature. -/
def statusOf (st : SysState) (featureId : String) : Option String :=
  (alookup st.features featureId).map fun f => f.status

/-! ## Check-then-register interleaving (claim C1)

`executeFeature` checks the registry at push.ts 126 but only inserts the
execution record at push.ts 190, after `await this.contextExists(...)`
(line 131) and `await this.loadFeature(...)` (line 154) — each `await`
is a cooperative yield point of the single-threaded event loop
(`followUpFeature` has the same shape: check at 326, insert at 387, with
awaits between).  The machine below runs two concurrent
`executeFeature(projectPath, fid, false, false)` calls for the same id
— no existing transcript, feature present — as an interleaving of their
atomic segments. -/

inductive TaskPC
  | atCheck         -- about to run the `runningFeatures.has` gate (126)
  | awaitingContext -- passed the gate; suspended in `await contextExists` (131)
  | awaitingLoad    -- no context; suspended in `await loadFeature` (154)
  | running         -- inserted into the registry (190), agent running
  | rejected        -- threw `AlreadyRunning` (127)
deriving Repr, DecidableEq

/-- One atomic segment of one `executeFeature` call.  The registry is a
`Map`, so the insert at 190 is a set: it can never produce a second
entry for the same id. -/
def raceTaskStep (fid : String) :
    List String → TaskPC → List String × TaskPC
  | reg, .atCheck =>
    if fid ∈ reg then (reg, .rejected) else (reg, .awaitingContext)
  | reg, .awaitingContext => (reg, .awaitingLoad)
  | reg, .awaitingLoad =>
    -- loadFeature resolves; with `useWorktrees = false` there is no
    -- further await before `runningFeatures.set(featureId, ...)` (190)
    ((if fid ∈ reg then reg else reg ++ [fid]), .running)
  | reg, pc => (reg, pc)

structure RaceState where
  registry : List String
  pcA : TaskPC
  pcB : TaskPC
deriving Repr, DecidableEq

def raceStep (fid : String) (s : RaceState) (stepA : Bool) : RaceState :=
  if stepA then
    let r := raceTaskStep fid s.registry s.pcA
    { s with registry := r.1, pcA := r.2 }
  else
    let r := raceTaskStep fid s.registry s.pcB
    { s with registry := r.1, pcB := r.2 }

/-- Run both calls under the event-loop schedule `sched` (`true` = the
next segment of call A runs, `false` = of call B). -/
def raceRun (fid : String) (s : RaceState) : List Bool → RaceState
  | [] => s
  | b :: rest => raceRun fid (raceStep fid s b) rest

/-! ## Concrete witness states for the resume claim -/

def c9Behavior : AgentBehavior :=
  ⟨[.assistant [.text "continuing the work"]], none, [], true⟩

/-- A state with a saved transcript `"OLD"` for feature `f1`. -/
def c9StateSeeded : SysState :=
  ⟨[], [("f1", { id := "f1", description := "demo feature" })],
   [("f1", "OLD")], ⟨[], [], []⟩, 0⟩

/-- The same state with no transcript. -/
def c9StateFresh : SysState :=
  ⟨[], [("f1", { id := "f1", description := "demo feature" })],
   [], ⟨[], [], []⟩, 0⟩

/-- The same state with an existing but empty transcript file: reachable
because `contextExists`/`resumeFeature` only test `fs.access`, and a
debounced write of an empty buffer can create such a file. -/
def c9StateEmpty : SysState :=
  ⟨[], [("f1", { id := "f1", description := "demo feature" })],
   [("f1", "")], ⟨[], [], []⟩, 0⟩

/-- 80-character description with no newline: 25 leading spaces followed by
55 letters.  `extractTitleFromDescription` trims the first line before
applying the 60-character cutoff, so the title is the 55 letters, verbatim. -/
def wsDescription80 : String :=
  String.mk (List.replicate 25 ' ' ++ List.replicate 55 'a')

/-! # Theorems -/

/-! ## Helper lemmas about the JS string model -/

theorem str_append_assoc (a b c : String) : a ++ b ++ c = a ++ (b ++ c) := by
  apply String.ext
  simp [String.data_append]

theorem jsStartsWith_append_self (pre rest : String) :
    jsStartsWith (pre ++ rest) pre = true := by
  rw [jsStartsWith, String.data_append, List.isPrefixOf_iff_prefix ]
  exact List.prefix_append _ _

theorem jsStartsWith_append_left (s t pre : String)
    (h : pre.data.length ≤ s.data.length) :
    jsStartsWith (s ++ t) pre = jsStartsWith s pre := by
  rw [jsStartsWith, jsStartsWith, String.data_append, Bool.eq_iff_iff,
    List.isPrefixOf_iff_prefix , List.isPrefixOf_iff_prefix ,
    List.prefix_iff_eq_take, List.prefix_iff_eq_take,
    List.take_append_of_le_length h]

theorem jsStartsWith_append_extend (s t pre : String)
    (h : jsStartsWith s pre = true) : jsStartsWith (s ++ t) pre = true := by
  rw [jsStartsWith, List.isPrefixOf_iff_prefix ] at h
  rw [jsStartsWith, String.data_append, List.isPrefixOf_iff_prefix ]
  exact h.trans (List.prefix_append _ _)

theorem jsSlice_append (pre rest : String) :
    jsSlice (pre ++ rest) (jsLen pre) = rest := by
  apply String.ext
  simp [jsSlice, jsLen, String.data_append, List.drop_left]

theorem jsReplaceOnceData_prefixed (pat rep l : List Char) (h : pat ≠ []) :
    jsReplaceOnceData pat rep (pat ++ l) = rep ++ l := by
  cases pat with
  | nil => exact absurd rfl h
  | cons c t =>
    have hpre : (c :: t).isPrefixOf (c :: (t ++ l)) = true := by
      rw [List.isPrefixOf_iff_prefix ]
      show (c :: t) <+: (c :: t) ++ l
      exact List.prefix_append _ _
    show jsReplaceOnceData (c :: t) rep (c :: (t ++ l)) = rep ++ l
    unfold jsReplaceOnceData
    rw [if_pos hpre]
    show rep ++ ((c :: t) ++ l).drop (c :: t).length = rep ++ l
    rw [List.drop_left]

theorem jsReplaceOnce_prefixed (pat rest rep : String) (h : pat ≠ "") :
    jsReplaceOnce (pat ++ rest) pat rep = rep ++ rest := by
  apply String.ext
  show jsReplaceOnceData pat.data rep.data (pat ++ rest).data = (rep ++ rest).data
  rw [String.data_append, String.data_append]
  apply jsReplaceOnceData_prefixed
  intro hd
  exact h (String.ext hd)

theorem ne_empty_of_jsStartsWith (s pre : String)
    (hpre : pre ≠ "") (h : jsStartsWith s pre = true) : s ≠ "" := by
  intro hs
  subst hs
  rw [jsStartsWith, List.isPrefixOf_iff_prefix ,
    show ("" : String).data = [] from rfl, List.prefix_nil] at h
  exact hpre (String.ext h)

theorem str_empty_append (s : String) : "" ++ s = s := by
  apply String.ext
  simp [String.data_append]

/-! ## Worktree lookup lemmas -/

theorem scan_step_worktree (pp bn p : String) (rest : List String)
    (cp cb : Option String) :
    findWorktreeScan pp bn (("worktree " ++ p) :: rest) cp cb
      = findWorktreeScan pp bn rest (some p) cb := by
  rw [findWorktreeScan]
  rw [if_pos (jsStartsWith_append_self "worktree " p)]
  rw [show (9 : Nat) = jsLen "worktree " from rfl, jsSlice_append]

theorem scan_step_head (pp bn : String) (rest : List String)
    (cp cb : Option String) :
    findWorktreeScan pp bn
      ("HEAD 0000000000000000000000000000000000000000" :: rest) cp cb
      = findWorktreeScan pp bn rest cp cb := by
  rw [findWorktreeScan]
  rw [if_neg (by decide), if_neg (by decide), if_neg (by decide)]

theorem scan_step_branch (pp bn b : String) (rest : List String)
    (cp cb : Option String) :
    findWorktreeScan pp bn (("branch refs/heads/" ++ b) :: rest) cp cb
      = findWorktreeScan pp bn rest cp (some b) := by
  have hsplit : ("branch refs/heads/" : String) ++ b
      = "branch " ++ ("refs/heads/" ++ b) := by
    have hx : ("branch " : String) ++ "refs/heads/" = "branch refs/heads/" := by
      decide
    rw [← str_append_assoc, hx]
  have h1 : jsStartsWith ("branch refs/heads/" ++ b) "worktree " = false := by
    rw [jsStartsWith_append_left "branch refs/heads/" b "worktree " (by decide)]
    decide
  have h2 : jsStartsWith ("branch refs/heads/" ++ b) "branch " = true := by
    rw [hsplit]
    exact jsStartsWith_append_self "branch " ("refs/heads/" ++ b)
  rw [findWorktreeScan]
  rw [if_neg (by simp [h1]), if_pos h2]
  rw [hsplit, show (7 : Nat) = jsLen "branch " from rfl, jsSlice_append,
    jsReplaceOnce_prefixed "refs/heads/" b "" (by decide), str_empty_append]

theorem scan_step_blank_reset (pp bn p b : String) (rest : List String)
    (hp : p ≠ "") (hb : b ≠ "") (hbn : b ≠ bn) :
    findWorktreeScan pp bn ("" :: rest) (some p) (some b)
      = findWorktreeScan pp bn rest none none := by
  rw [findWorktreeScan]
  rw [if_neg (by decide), if_neg (by decide), if_pos rfl,
    if_pos (by simp [truthy, hp, hb]), if_neg (by simpa using hbn)]

theorem scan_step_blank_found (pp bn p : String) (rest : List String)
    (hp : p ≠ "") (hbn : bn ≠ "") :
    findWorktreeScan pp bn ("" :: rest) (some p) (some bn)
      = some (resolveWorktreeEntryPath pp p) := by
  rw [findWorktreeScan]
  rw [if_neg (by decide), if_neg (by decide), if_pos rfl,
    if_pos (by simp [truthy, hp, hbn]), if_pos (by simp)]
  rfl

theorem scan_entry_skip (pp bn p b : String) (rest : List String)
    (hp : p ≠ "") (hb : b ≠ "") (hbn : b ≠ bn) :
    findWorktreeScan pp bn (worktreeEntryLines (p, b) ++ rest) none none
      = findWorktreeScan pp bn rest none none := by
  show findWorktreeScan pp bn
    (("worktree " ++ p) :: "HEAD 0000000000000000000000000000000000000000"
      :: ("branch refs/heads/" ++ b) :: "" :: rest) none none
    = findWorktreeScan pp bn rest none none
  rw [scan_step_worktree, scan_step_head, scan_step_branch,
    scan_step_blank_reset pp bn p b rest hp hb hbn]

theorem scan_entry_found (pp bn p : String) (rest : List String)
    (hp : p ≠ "") (hbn : bn ≠ "") :
    findWorktreeScan pp bn (worktreeEntryLines (p, bn) ++ rest) none none
      = some (resolveWorktreeEntryPath pp p) := by
  show findWorktreeScan pp bn
    (("worktree " ++ p) :: "HEAD 0000000000000000000000000000000000000000"
      :: ("branch refs/heads/" ++ bn) :: "" :: rest) none none
    = some (resolveWorktreeEntryPath pp p)
  rw [scan_step_worktree, scan_step_head, scan_step_branch,
    scan_step_blank_found pp bn p rest hp hbn]

theorem scan_entries_skip (pp bn : String) (wts : List (String × String))
    (rest : List String)
    (h : ∀ pb ∈ wts, pb.1 ≠ "" ∧ pb.2 ≠ "" ∧ pb.2 ≠ bn) :
    findWorktreeScan pp bn (worktreeEntriesLines wts ++ rest) none none
      = findWorktreeScan pp bn rest none none := by
  induction wts with
  | nil => simp [worktreeEntriesLines]
  | cons pb tl ih =>
    obtain ⟨p, b⟩ := pb
    obtain ⟨hp, hb, hbn⟩ := h (p, b) (List.mem_cons_self _ _)
    have htl := fun x hx => h x (List.mem_cons_of_mem _ hx)
    show findWorktreeScan pp bn
      (((((p, b) :: tl).map worktreeEntryLines).flatten) ++ rest) none none
      = findWorktreeScan pp bn rest none none
    rw [List.map_cons, List.flatten_cons, List.append_assoc]
    rw [scan_entry_skip pp bn p b _ hp hb hbn]
    exact ih htl

theorem scan_trailing_blank (pp bn : String) :
    findWorktreeScan pp bn [""] none none = none := by
  rw [findWorktreeScan]
  rw [if_neg (by decide), if_neg (by decide), if_pos rfl, if_neg (by decide)]
  rw [findWorktreeScan]
  rw [if_neg (by decide)]

theorem porcelain_scan_no_match (pp bn : String) (wts : List (String × String))
    (hwf : ∀ pb ∈ wts, pb.1 ≠ "" ∧ pb.2 ≠ "" ∧ pb.2 ≠ bn) :
    findWorktreeScan pp bn (porcelainLines wts) none none = none := by
  unfold porcelainLines
  rw [scan_entries_skip pp bn wts [""] hwf, scan_trailing_blank]

theorem porcelain_scan_found (pp bn : String) (wts : List (String × String))
    (wtPath : String)
    (hwf : ∀ pb ∈ wts, pb.1 ≠ "" ∧ pb.2 ≠ "" ∧ pb.2 ≠ bn)
    (hwt : wtPath ≠ "") (hbn : bn ≠ "") :
    findWorktreeScan pp bn (porcelainLines (wts ++ [(wtPath, bn)])) none none
      = some (resolveWorktreeEntryPath pp wtPath) := by
  unfold porcelainLines worktreeEntriesLines
  rw [List.map_append, List.flatten_append, List.append_assoc]
  show findWorktreeScan pp bn
    (worktreeEntriesLines wts
      ++ (([(wtPath, bn)].map worktreeEntryLines).flatten ++ [""])) none none
    = some (resolveWorktreeEntryPath pp wtPath)
  rw [scan_entries_skip pp bn wts _ hwf]
  show findWorktreeScan pp bn
    (worktreeEntryLines (wtPath, bn) ++ ([] ++ [""])) none none
    = some (resolveWorktreeEntryPath pp wtPath)
  rw [List.nil_append]
  exact scan_entry_found pp bn wtPath [""] hwt hbn

theorem mem_insertNew {l : List String} {x y : String} :
    y ∈ insertNew l x ↔ y ∈ l ∨ y = x := by
  unfold insertNew
  split
  · rename_i hx
    constructor
    · exact fun h => Or.inl h
    · rintro (h | rfl)
      · exact h
      · exact hx
  · simp

theorem pathJoin_ne (a b : String) : pathJoin a b ≠ a := by
  intro h
  have hlen := congrArg (fun s : String => s.data.length) h
  have h1 : ("/" : String).data.length = 1 := by decide
  simp only [pathJoin, String.data_append, List.length_append, h1] at hlen
  omega

/-- Claim C7: `setupWorktree` is idempotent per branch.  Starting from a
git state with no worktree bound to `branchName`, calling it twice for the
same branch returns the same absolute path both times; the first call runs
`git worktree add` exactly once and the second call runs it zero times,
because the existing binding is looked up before any creation. -/
theorem setupWorktree_idempotent
    (git : GitState) (projectPath featureId branchName : String)
    (habs : jsStartsWith projectPath "/" = true)
    (hbn : branchName ≠ "")
    (hwf : ∀ pb ∈ git.worktrees, pb.1 ≠ "" ∧ pb.2 ≠ "" ∧ pb.2 ≠ branchName)
    (hdir : pathJoin (pathJoin projectPath ".worktrees") featureId ∉ git.dirs) :
    (setupWorktree (setupWorktree git true projectPath featureId branchName).git
        true projectPath featureId branchName).path
      = (setupWorktree git true projectPath featureId branchName).path
    ∧ (setupWorktree git true projectPath featureId branchName).worktreeAdds = 1
    ∧ (setupWorktree (setupWorktree git true projectPath featureId branchName).git
        true projectPath featureId branchName).worktreeAdds = 0
    ∧ pathIsAbsolute
        (setupWorktree git true projectPath featureId branchName).path = true := by
  have habs2 : jsStartsWith
      (pathJoin (pathJoin projectPath ".worktrees") featureId) "/" = true := by
    have h1 := jsStartsWith_append_extend projectPath "/" "/" habs
    have h2 := jsStartsWith_append_extend _ ".worktrees" "/" h1
    have h3 := jsStartsWith_append_extend _ "/" "/" h2
    have h4 := jsStartsWith_append_extend _ featureId "/" h3
    exact h4
  have hwt : pathJoin (pathJoin projectPath ".worktrees") featureId ≠ "" :=
    ne_empty_of_jsStartsWith _ "/" (by decide) habs2
  have h0 : findExistingWorktreeForBranch git projectPath branchName = none := by
    show findWorktreeScan projectPath branchName
      (porcelainLines git.worktrees) none none = none
    exact porcelain_scan_no_match projectPath branchName git.worktrees hwf
  have hnm : pathJoin (pathJoin projectPath ".worktrees") featureId
      ∉ insertNew git.dirs (pathJoin projectPath ".worktrees") := by
    rw [mem_insertNew]
    rintro (h | h)
    · exact hdir h
    · exact pathJoin_ne _ _ h
  have hr1 : setupWorktree git true projectPath featureId branchName =
      ⟨pathJoin (pathJoin projectPath ".worktrees") featureId,
       ⟨git.worktrees
          ++ [(pathJoin (pathJoin projectPath ".worktrees") featureId,
               branchName)],
        insertNew git.branches branchName,
        insertNew (insertNew git.dirs (pathJoin projectPath ".worktrees"))
          (pathJoin (pathJoin projectPath ".worktrees") featureId)⟩,
       1⟩ := by
    simp [setupWorktree, h0, hnm, pathResolve]
  have hfind2 : findExistingWorktreeForBranch
      (⟨git.worktrees
          ++ [(pathJoin (pathJoin projectPath ".worktrees") featureId,
               branchName)],
        insertNew git.branches branchName,
        insertNew (insertNew git.dirs (pathJoin projectPath ".worktrees"))
          (pathJoin (pathJoin projectPath ".worktrees") featureId)⟩ : GitState)
      projectPath branchName
      = some (pathJoin (pathJoin projectPath ".worktrees") featureId) := by
    show findWorktreeScan projectPath branchName
      (porcelainLines (git.worktrees
        ++ [(pathJoin (pathJoin projectPath ".worktrees") featureId,
             branchName)])) none none
      = some (pathJoin (pathJoin projectPath ".worktrees") featureId)
    rw [porcelain_scan_found projectPath branchName git.worktrees _ hwf hwt hbn]
    simp [resolveWorktreeEntryPath, pathIsAbsolute, habs2, pathResolve]
  have hr2 : setupWorktree
      (⟨git.worktrees
          ++ [(pathJoin (pathJoin projectPath ".worktrees") featureId,
               branchName)],
        insertNew git.branches branchName,
        insertNew (insertNew git.dirs (pathJoin projectPath ".worktrees"))
          (pathJoin (pathJoin projectPath ".worktrees") featureId)⟩ : GitState)
      true projectPath featureId branchName
      = ⟨pathJoin (pathJoin projectPath ".worktrees") featureId,
         ⟨git.worktrees
            ++ [(pathJoin (pathJoin projectPath ".worktrees") featureId,
                 branchName)],
          insertNew git.branches branchName,
          insertNew (insertNew git.dirs (pathJoin projectPath ".worktrees"))
            (pathJoin (pathJoin projectPath ".worktrees") featureId)⟩,
         0⟩ := by
    unfold setupWorktree
    rw [hfind2]
  refine ⟨?_, ?_, ?_, ?_⟩
  · simp only [hr1, hr2]
  · simp only [hr1]
  · simp only [hr1, hr2]
  · simp only [hr1]
    exact habs2

/-- Witness for `setupWorktree_idempotent` at a concrete empty git state. -/
theorem setupWorktree_idempotent_witness :
    (setupWorktree (setupWorktree ⟨[], [], []⟩ true "/proj" "f1" "feat-x").git
        true "/proj" "f1" "feat-x").path
      = (setupWorktree ⟨[], [], []⟩ true "/proj" "f1" "feat-x").path
    ∧ (setupWorktree ⟨[], [], []⟩ true "/proj" "f1" "feat-x").worktreeAdds = 1
    ∧ (setupWorktree (setupWorktree ⟨[], [], []⟩ true "/proj" "f1" "feat-x").git
        true "/proj" "f1" "feat-x").worktreeAdds = 0
    ∧ pathIsAbsolute
        (setupWorktree ⟨[], [], []⟩ true "/proj" "f1" "feat-x").path = true :=
  setupWorktree_idempotent ⟨[], [], []⟩ "/proj" "f1" "feat-x" (by decide)
    (by decide) (by decide) (by decide)

/-- Claim C8 counterexample: `wsDescription80` has 80 characters and no
newline, yet the derived commit title has 55 characters (the trimmed first
line, used verbatim), not 60 characters ending in `"..."`. -/
theorem extractTitle_whitespace_counterexample :
    jsLen wsDescription80 = 80
      ∧ wsDescription80.data.all (fun c => c ≠ '\n') = true
      ∧ jsLen (extractTitleFromDescription wsDescription80) = 55
      ∧ jsEndsWith (extractTitleFromDescription wsDescription80) "..." = false := by
  decide

/-- Claim C8 (amended): for a description that is non-empty and does not
trim to the empty string, the commit title is the trimmed first line,
verbatim when it has at most 60 characters; when it is longer the title is
its first 57 characters followed by `"..."`, hence exactly 60 characters
ending in `"..."`. -/
theorem extractTitle_trimmed_truncation (d : String)
    (hne : (d = "" || jsTrim d = "") = false) :
    (jsLen (jsTrim (jsFirstLine d)) ≤ 60 →
      extractTitleFromDescription d = jsTrim (jsFirstLine d))
    ∧ (60 < jsLen (jsTrim (jsFirstLine d)) →
      extractTitleFromDescription d = jsSubstring (jsTrim (jsFirstLine d)) 57 ++ "..."
        ∧ jsLen (extractTitleFromDescription d) = 60
        ∧ jsEndsWith (extractTitleFromDescription d) "..." = true) := by
  unfold extractTitleFromDescription
  rw [hne]
  simp only [Bool.false_eq_true, if_false]
  constructor
  · intro hle
    rw [if_pos hle]
  · intro hgt
    rw [if_neg (by omega)]
    refine ⟨rfl, ?_, ?_⟩
    · have h3 : ("...".data).length = 3 := by decide
      simp only [jsLen, jsSubstring, String.data_append, List.length_append,
        List.length_take, h3]
      unfold jsLen at hgt
      omega
    · simp only [jsEndsWith, jsSubstring, String.data_append,
        List.isSuffixOf_iff_suffix]
      exact List.suffix_append _ _

/-- Witness for `extractTitle_trimmed_truncation`: a short description is
kept verbatim, and an 80-letter description (no whitespace) yields a
60-character title. -/
theorem extractTitle_trimmed_truncation_witness :
    extractTitleFromDescription "Add dark mode" = "Add dark mode"
      ∧ jsLen (extractTitleFromDescription (String.mk (List.replicate 80 'b'))) = 60 :=
  ⟨((extractTitle_trimmed_truncation "Add dark mode" (by decide)).1
      (by decide)).trans (by decide),
   ((extractTitle_trimmed_truncation (String.mk (List.replicate 80 'b'))
      (by decide)).2 (by decide)).2.1⟩

/-- Claim C6: `verifyFeature` runs the fixed ordered sequence lint,
type-check, test, build and stops at the first failing step: when lint
passes and the type check fails, it returns `passes = false` with the
message referencing `"Type check"`, and neither the test command nor the
build command is spawned. -/
theorem verifyFeature_fail_fast
    (execCmd : String → Except String (String × String))
    (out1 : String × String) (e : String)
    (hlint : execCmd "npm run lint" = .ok out1)
    (htc : execCmd "npm run typecheck" = .error e) :
    (verifyFeature execCmd).passes = false
    ∧ (verifyFeature execCmd).message = "Verification failed: Type check"
    ∧ (verifyFeature execCmd).invoked = ["npm run lint", "npm run typecheck"] := by
  obtain ⟨o1, o2⟩ := out1
  have hrun : runVerificationChecks execCmd verificationChecks
      = (false,
         [⟨"Lint", true, if o1 = "" then o2 else o1⟩,
          ⟨"Type check", false, e⟩],
         ["npm run lint", "npm run typecheck"]) := by
    simp only [verificationChecks, runVerificationChecks, hlint, htc]
  refine ⟨?_, ?_, ?_⟩ <;>
    simp [verifyFeature, hrun, jsOrElse, List.find?]

/-- Witness for `verifyFeature_fail_fast` on a concrete command oracle. -/
theorem verifyFeature_fail_fast_witness :
    (verifyFeature fun cmd =>
      if cmd = "npm run lint" then .ok ("lint ok", "")
      else .error "Command failed: npm run typecheck").passes = false
    ∧ (verifyFeature fun cmd =>
        if cmd = "npm run lint" then .ok ("lint ok", "")
        else .error "Command failed: npm run typecheck").message
      = "Verification failed: Type check"
    ∧ (verifyFeature fun cmd =>
        if cmd = "npm run lint" then .ok ("lint ok", "")
        else .error "Command failed: npm run typecheck").invoked
      = ["npm run lint", "npm run typecheck"] :=
  verifyFeature_fail_fast _ ("lint ok", "")
    "Command failed: npm run typecheck" rfl rfl

/-- Claim C5 counterexample: with a concrete environment in which
`git status` reports pending changes and `git commit` fails, the
`commitFeature` call returns the normal value `null` (`.ok none`) —
the commit failure is swallowed, not propagated as an exception. -/
theorem commitFeature_failure_returns_null :
    commitFeature
      ⟨[], none,
       fun _ => .ok " M src/app.ts\n",
       fun _ => .ok (),
       fun _ _ => .error "git commit failed: exit code 1",
       fun _ => .ok "abcdef1234567890\n"⟩
      "/p" "f1" none = .ok none := rfl

/-- Claim C5 (amended): `commitFeature` never rejects — its try/catch
converts every thrown failure into a normal `null` return.  In
particular, when `git status` reports changes, `git add` succeeds and the
`git commit` step fails, the call returns `.ok none`, the same value as
the no-pending-changes case. -/
theorem commitFeature_swallows_commit_failure
    (env : CommitEnv) (projectPath featureId : String)
    (provided : Option String) :
    (∃ v, commitFeature env projectPath featureId provided = .ok v)
    ∧ (∀ s e,
        env.statusOut (commitWorkDir env projectPath featureId provided)
          = .ok s →
        jsTrim s ≠ "" →
        env.addOutcome (commitWorkDir env projectPath featureId provided)
          = .ok () →
        env.commitOutcome (commitWorkDir env projectPath featureId provided)
          (commitMessageOf env.feature featureId) = .error e →
        commitFeature env projectPath featureId provided = .ok none) := by
  constructor
  · unfold commitFeature
    cases commitFeatureTry env projectPath featureId provided with
    | ok r => exact ⟨r, rfl⟩
    | error _ => exact ⟨none, rfl⟩
  · intro s e hstatus hne hadd hcommit
    have htry : commitFeatureTry env projectPath featureId provided
        = .error e := by
      simp only [commitFeatureTry, hstatus, hadd, hcommit]
      rw [if_neg hne]
    unfold commitFeature
    rw [htry]

/-- Witness for `commitFeature_swallows_commit_failure` at a concrete
environment whose commit step fails. -/
theorem commitFeature_swallows_commit_failure_witness :
    commitFeature
      ⟨["/p/.worktrees/f2"], some { description := "Fix login" },
       fun _ => .ok " M src/login.ts\n",
       fun _ => .ok (),
       fun _ _ => .error "exit code 128",
       fun _ => .ok "1234abcd\n"⟩
      "/p" "f2" none = .ok none :=
  (commitFeature_swallows_commit_failure
    ⟨["/p/.worktrees/f2"], some { description := "Fix login" },
     fun _ => .ok " M src/login.ts\n",
     fun _ => .ok (),
     fun _ _ => .error "exit code 128",
     fun _ => .ok "1234abcd\n"⟩
    "/p" "f2" none).2 " M src/login.ts\n" "exit code 128" rfl (by decide) rfl rfl

/-! ## Agent-stream lemmas: the buffer only ever grows by appends -/

theorem str_append_empty (s : String) : s ++ "" = s := by
  apply String.ext
  simp [String.data_append]

theorem appendTextBlock_extends (b s : String) :
    ∃ d, appendTextBlock b s = b ++ d := by
  by_cases h1 : (jsLen b > 0 && !(jsEndsWith b "\n\n")) = true
  · by_cases h2 : jsEndsWith b "\n" = true
    · refine ⟨"\n" ++ s, ?_⟩
      unfold appendTextBlock
      rw [if_pos h1, if_pos h2, str_append_assoc]
    · refine ⟨"\n\n" ++ s, ?_⟩
      unfold appendTextBlock
      rw [if_pos h1, if_neg h2, str_append_assoc]
  · refine ⟨s, ?_⟩
    unfold appendTextBlock
    rw [if_neg h1]

theorem appendToolBlock_extends (b n : String) (i : Option String) :
    ∃ d, appendToolBlock b n i = b ++ d := by
  by_cases h1 : (jsLen b > 0 && !(jsEndsWith b "\n")) = true
  · refine ⟨"\n" ++ "\n🔧 Tool: " ++ n ++ "\n"
      ++ (match i with
          | some payload => "Input: " ++ payload ++ "\n"
          | none => ""), ?_⟩
    unfold appendToolBlock
    rw [if_pos h1]
    apply String.ext
    simp [String.data_append]
  · refine ⟨"\n🔧 Tool: " ++ n ++ "\n"
      ++ (match i with
          | some payload => "Input: " ++ payload ++ "\n"
          | none => ""), ?_⟩
    unfold appendToolBlock
    rw [if_neg h1]
    apply String.ext
    simp [String.data_append]

theorem processBlock_extends (fid : String) (st : AgentRunState)
    (b : ContentBlock) :
    ∃ d, (processBlock fid st b).1.buffer = st.buffer ++ d := by
  cases b with
  | text s =>
    obtain ⟨d, hd⟩ := appendTextBlock_extends st.buffer s
    refine ⟨d, ?_⟩
    simp only [processBlock]
    split
    · show appendTextBlock st.buffer s = st.buffer ++ d
      exact hd
    · show appendTextBlock st.buffer s = st.buffer ++ d
      exact hd
  | toolUse n i =>
    obtain ⟨d, hd⟩ := appendToolBlock_extends st.buffer n i
    refine ⟨d, ?_⟩
    show appendToolBlock st.buffer n i = st.buffer ++ d
    exact hd

theorem processBlocks_extends (fid : String) (blocks : List ContentBlock) :
    ∀ st : AgentRunState,
      ∃ d, (processBlocks fid st blocks).1.buffer = st.buffer ++ d := by
  induction blocks with
  | nil => exact fun st => ⟨"", (str_append_empty st.buffer).symm⟩
  | cons b rest ih =>
    intro st
    obtain ⟨d1, hd1⟩ := processBlock_extends fid st b
    simp only [processBlocks]
    cases hpb : processBlock fid st b with
    | mk st1 o =>
      rw [hpb] at hd1
      cases o with
      | some e =>
        refine ⟨d1, ?_⟩
        show st1.buffer = st.buffer ++ d1
        exact hd1
      | none =>
        obtain ⟨d2, hd2⟩ := ih st1
        refine ⟨d1 ++ d2, ?_⟩
        show (processBlocks fid st1 rest).1.buffer = st.buffer ++ (d1 ++ d2)
        rw [hd2, hd1, str_append_assoc]

theorem processMsg_extends (fid : String) (st : AgentRunState)
    (m : AgentMsg) :
    ∃ d, (processMsg fid st m).1.buffer = st.buffer ++ d := by
  cases m with
  | assistant blocks => exact processBlocks_extends fid blocks st
  | errorMsg err =>
    refine ⟨"", ?_⟩
    show st.buffer = st.buffer ++ ""
    exact (str_append_empty st.buffer).symm
  | result subtype r =>
    refine ⟨"", ?_⟩
    simp only [processMsg]
    split
    · show st.buffer = st.buffer ++ ""
      exact (str_append_empty st.buffer).symm
    · show st.buffer = st.buffer ++ ""
      exact (str_append_empty st.buffer).symm

theorem debounceStep_buffer (fire : Bool) (st : AgentRunState) :
    (debounceStep fire st).buffer = st.buffer := by
  unfold debounceStep
  split <;> rfl

theorem runAgentLoop_extends (fid : String) (msgs : List AgentMsg) :
    ∀ (st : AgentRunState) (sched : List Bool),
      ∃ d, (runAgentLoop fid st msgs sched).1.buffer = st.buffer ++ d := by
  induction msgs with
  | nil => exact fun st _ => ⟨"", (str_append_empty st.buffer).symm⟩
  | cons m rest ih =>
    intro st sched
    obtain ⟨d1, hd1⟩ := processMsg_extends fid st m
    simp only [runAgentLoop]
    cases hpm : processMsg fid st m with
    | mk st1 o =>
      rw [hpm] at hd1
      cases o with
      | some e =>
        refine ⟨d1, ?_⟩
        show st1.buffer = st.buffer ++ d1
        exact hd1
      | none =>
        obtain ⟨d2, hd2⟩ :=
          ih (debounceStep (sched.headD false) st1) sched.tail
        refine ⟨d1 ++ d2, ?_⟩
        show (runAgentLoop fid (debounceStep (sched.headD false) st1) rest
          sched.tail).1.buffer = st.buffer ++ (d1 ++ d2)
        rw [hd2, debounceStep_buffer, hd1, str_append_assoc]

theorem runAgent_buffer_extends (fid : String)
    (prev initFile : Option String) (msgs : List AgentMsg)
    (se : Option ErrClass) (sched : List Bool) :
    ∃ d, (runAgent fid prev initFile msgs se sched).buffer
      = seedBuffer prev ++ d := by
  obtain ⟨d, hd⟩ :=
    runAgentLoop_extends fid msgs ⟨seedBuffer prev, initFile, false, []⟩ sched
  simp only [runAgent]
  cases hl : runAgentLoop fid ⟨seedBuffer prev, initFile, false, []⟩ msgs
      sched with
  | mk st o =>
    rw [hl] at hd
    cases o with
    | some e =>
      refine ⟨d, ?_⟩
      show st.buffer = seedBuffer prev ++ d
      exact hd
    | none =>
      cases se with
      | some e =>
        refine ⟨d, ?_⟩
        show st.buffer = seedBuffer prev ++ d
        exact hd
      | none =>
        refine ⟨d, ?_⟩
        show st.buffer = seedBuffer prev ++ d
        exact hd

/-- Claim C4 counterexample: a stream that delivers the text `"hello"`
and then an error event.  The loop throws before any debounced write has
fired and before the final write is reached, so after the stream ends the
persisted file (never written) does not equal the in-memory buffer
(`"hello"`): the forced final persistence does not happen on the error
path. -/
theorem runAgent_error_skips_final_write :
    (runAgent "f1" none none
      [.assistant [.text "hello"], .errorMsg (some "stream failure")]
      none [false, false]).outcome = some .execError
    ∧ (runAgent "f1" none none
        [.assistant [.text "hello"], .errorMsg (some "stream failure")]
        none [false, false]).buffer = "hello"
    ∧ (runAgent "f1" none none
        [.assistant [.text "hello"], .errorMsg (some "stream failure")]
        none [false, false]).file = none := by
  decide

theorem runAgent_file_of_outcome_none (fid : String)
    (prev initFile : Option String) (msgs : List AgentMsg)
    (se : Option ErrClass) (sched : List Bool)
    (h : (runAgent fid prev initFile msgs se sched).outcome = none) :
    (runAgent fid prev initFile msgs se sched).file
      = some ((runAgent fid prev initFile msgs se sched).buffer) := by
  simp only [runAgent] at h ⊢
  cases hl : runAgentLoop fid ⟨seedBuffer prev, initFile, false, []⟩ msgs
      sched with
  | mk st o =>
    rw [hl] at h
    cases o with
    | some e => simp at h
    | none =>
      cases se with
      | some e => simp at h
      | none => rfl

/-- Claim C4 (amended): when the agent stream completes without throwing
(neither an in-loop throw nor a stream-iteration failure), the pending
debounce timer is cleared and one forced final persistence runs, so the
persisted transcript file equals the in-memory buffer regardless of the
debounce schedule.  When the stream ends by error or cancellation the
final write is skipped (see the counterexample). -/
theorem runAgent_final_write_on_success (fid : String)
    (prev initFile : Option String) (msgs : List AgentMsg)
    (se : Option ErrClass) (sched : List Bool)
    (h : (runAgent fid prev initFile msgs se sched).outcome = none) :
    (runAgent fid prev initFile msgs se sched).file
      = some ((runAgent fid prev initFile msgs se sched).buffer) :=
  runAgent_file_of_outcome_none fid prev initFile msgs se sched h

/-- Witness for `runAgent_final_write_on_success` on a concrete
successful stream with no debounce firing. -/
theorem runAgent_final_write_on_success_witness :
    (runAgent "f1" none none
      [.assistant [.text "done"], .result "success" (some "done")]
      none [false, false]).file
    = some ((runAgent "f1" none none
        [.assistant [.text "done"], .result "success" (some "done")]
        none [false, false]).buffer) :=
  runAgent_final_write_on_success "f1" none none
    [.assistant [.text "done"], .result "success" (some "done")]
    none [false, false] rfl

/-! ## Association-list lemmas (Map / per-key file semantics) -/

theorem alookup_aerase {α : Type} (l : List (String × α)) (k : String) :
    alookup (aerase l k) k = none := by
  induction l with
  | nil => rfl
  | cons kv t ih =>
    by_cases h : kv.1 = k
    · simp only [aerase, if_pos h]
      exact ih
    · simp only [aerase, if_neg h, alookup]
      exact ih

theorem alookup_aset_self {α : Type} (l : List (String × α)) (k : String)
    (v : α) : alookup (aset l k v) k = some v := by
  induction l with
  | nil => simp [aset, alookup]
  | cons kv t ih =>
    by_cases h : kv.1 = k
    · simp [aset, if_pos h, alookup]
    · simp only [aset, if_neg h, alookup]
      exact ih

theorem aset_keys {α : Type} (l : List (String × α)) (k : String) (v v0 : α)
    (h : alookup l k = some v0) :
    ((aset l k v).map fun kv => kv.1) = l.map fun kv => kv.1 := by
  induction l with
  | nil => simp [alookup] at h
  | cons kv t ih =>
    by_cases hk : kv.1 = k
    · simp [aset, if_pos hk, hk]
    · simp only [alookup] at h
      rw [if_neg hk] at h
      simp [aset, if_neg hk, ih h]

theorem mem_keys_of_alookup {α : Type} (l : List (String × α)) (k : String)
    (v : α) (h : alookup l k = some v) : k ∈ l.map fun kv => kv.1 := by
  induction l with
  | nil => simp [alookup] at h
  | cons kv t ih =>
    by_cases hk : kv.1 = k
    · simp [hk]
    · simp only [alookup] at h
      rw [if_neg hk] at h
      simp [ih h]

theorem length_pos_of_alookup {α : Type} (l : List (String × α)) (k : String)
    (v : α) (h : alookup l k = some v) : 0 < l.length := by
  cases l with
  | nil => simp [alookup] at h
  | cons kv t => simp

theorem aset_length {α : Type} (l : List (String × α)) (k : String)
    (v v0 : α) (h : alookup l k = some v0) :
    (aset l k v).length = l.length := by
  have hkeys := congrArg List.length (aset_keys l k v v0 h)
  simpa using hkeys

theorem transcripts_update (st : SysState) (fid status : String) :
    (updateFeatureStatus st fid status).transcripts = st.transcripts := by
  unfold updateFeatureStatus
  cases alookup st.features fid <;> rfl

theorem statusOf_update (st : SysState) (fid status : String)
    (h : (alookup st.features fid).isSome = true) :
    statusOf (updateFeatureStatus st fid status) fid = some status := by
  unfold updateFeatureStatus statusOf
  cases hf : alookup st.features fid with
  | none => rw [hf] at h; simp at h
  | some f => simp [alookup_aset_self]

theorem lookup_isSome_update (st : SysState) (fid status : String)
    (h : (alookup st.features fid).isSome = true) :
    (alookup (updateFeatureStatus st fid status).features fid).isSome
      = true := by
  unfold updateFeatureStatus
  cases hf : alookup st.features fid with
  | none => rw [hf] at h; simp at h
  | some f => simp [alookup_aset_self]

/-- Claim C10: `stopFeature` on a running feature returns `true` and
only sets the abort flag: the registry keys are unchanged (the entry is
removed only by the run's own guaranteed cleanup), the feature store and
transcripts are untouched, and immediately afterwards `getStatus` still
reports the feature as running. -/
theorem stopFeature_frame (st : SysState) (fid : String)
    (rf : RunningFeature) (h : alookup st.registry fid = some rf) :
    (stopFeature st fid).1 = true
    ∧ ((stopFeature st fid).2.registry.map fun kv => kv.1)
      = (st.registry.map fun kv => kv.1)
    ∧ fid ∈ (getStatus (stopFeature st fid).2).runningFeatures
    ∧ (getStatus (stopFeature st fid).2).isRunning = true
    ∧ (stopFeature st fid).2.features = st.features
    ∧ (stopFeature st fid).2.transcripts = st.transcripts := by
  simp only [stopFeature, h, getStatus]
  refine ⟨trivial, ?_, ?_, ?_, trivial, trivial⟩
  · exact aset_keys st.registry fid _ rf h
  · show fid ∈ (aset st.registry fid _).map fun kv => kv.1
    rw [aset_keys st.registry fid _ rf h]
    exact mem_keys_of_alookup st.registry fid rf h
  · show decide ((aset st.registry fid _).length > 0) = true
    rw [aset_length st.registry fid _ rf h]
    exact decide_eq_true (length_pos_of_alookup st.registry fid rf h)

/-- Witness for `stopFeature_frame` at a concrete one-entry registry. -/
theorem stopFeature_frame_witness :
    (stopFeature
        ⟨[("f1", ⟨"f1", "/p", none, none, false, false, 0⟩)], [], [],
         ⟨[], [], []⟩, 0⟩ "f1").1 = true
    ∧ (((stopFeature
        ⟨[("f1", ⟨"f1", "/p", none, none, false, false, 0⟩)], [], [],
         ⟨[], [], []⟩, 0⟩ "f1").2.registry.map fun kv => kv.1)
      = ((⟨[("f1", ⟨"f1", "/p", none, none, false, false, 0⟩)], [], [],
         ⟨[], [], []⟩, 0⟩ : SysState).registry.map fun kv => kv.1))
    ∧ "f1" ∈ (getStatus (stopFeature
        ⟨[("f1", ⟨"f1", "/p", none, none, false, false, 0⟩)], [], [],
         ⟨[], [], []⟩, 0⟩ "f1").2).runningFeatures
    ∧ (getStatus (stopFeature
        ⟨[("f1", ⟨"f1", "/p", none, none, false, false, 0⟩)], [], [],
         ⟨[], [], []⟩, 0⟩ "f1").2).isRunning = true
    ∧ (stopFeature
        ⟨[("f1", ⟨"f1", "/p", none, none, false, false, 0⟩)], [], [],
         ⟨[], [], []⟩, 0⟩ "f1").2.features
      = (⟨[("f1", ⟨"f1", "/p", none, none, false, false, 0⟩)], [], [],
         ⟨[], [], []⟩, 0⟩ : SysState).features
    ∧ (stopFeature
        ⟨[("f1", ⟨"f1", "/p", none, none, false, false, 0⟩)], [], [],
         ⟨[], [], []⟩, 0⟩ "f1").2.transcripts
      = (⟨[("f1", ⟨"f1", "/p", none, none, false, false, 0⟩)], [], [],
         ⟨[], [], []⟩, 0⟩ : SysState).transcripts :=
  stopFeature_frame
    ⟨[("f1", ⟨"f1", "/p", none, none, false, false, 0⟩)], [], [],
     ⟨[], [], []⟩, 0⟩ "f1" ⟨"f1", "/p", none, none, false, false, 0⟩ rfl

/-! ## Registry cleanup -/

theorem executeCore_registry_cleanup (st : SysState) (pp fid : String)
    (u a : Bool) (ctx : Option String) (msg : String)
    (beh : AgentBehavior) :
    alookup (executeCore st pp fid u a ctx msg beh).state.registry fid
      = none := by
  simp only [executeCore]
  split
  · exact alookup_aerase _ _
  · split
    · exact alookup_aerase _ _
    · exact alookup_aerase _ _
    · exact alookup_aerase _ _

/-- Claim C2: for every run of `executeFeature` that passes the
`AlreadyRunning` gate, whatever the outcome (success, execution error,
authentication error, cancellation, and even `NotFound`), the `finally`
block removes the feature id from the running-features registry before
the promise settles. -/
theorem executeFeature_registry_cleanup (st : SysState) (pp fid : String)
    (u a : Bool) (beh : AgentBehavior)
    (hreg : alookup st.registry fid = none) :
    alookup (executeFeature st pp fid u a beh).state.registry fid
      = none := by
  unfold executeFeature
  rw [if_neg (by simp [hreg])]
  by_cases hctx : (alookup st.transcripts fid).isSome = true
  · rw [if_pos hctx]
    unfold resumeFeature
    cases hc : alookup st.transcripts fid with
    | none => rw [hc] at hctx; simp at hctx
    | some ctx =>
      show alookup
        (executeFeatureWithContext st pp fid ctx u beh).state.registry fid
        = none
      unfold executeFeatureWithContext
      rw [if_neg (by simp [hreg])]
      exact executeCore_registry_cleanup st pp fid u false (some ctx)
        "Feature resumed and completed" beh
  · rw [if_neg hctx]
    exact executeCore_registry_cleanup st pp fid u a none
      "Feature completed" beh

/-- Witness for `executeFeature_registry_cleanup` on a concrete fresh
run. -/
theorem executeFeature_registry_cleanup_witness :
    alookup (executeFeature
      ⟨[], [("f1", { id := "f1" })], [], ⟨[], [], []⟩, 0⟩
      "/p" "f1" false false
      ⟨[.assistant [.text "done"]], none, [], true⟩).state.registry "f1"
      = none :=
  executeFeature_registry_cleanup
    ⟨[], [("f1", { id := "f1" })], [], ⟨[], [], []⟩, 0⟩
    "/p" "f1" false false ⟨[.assistant [.text "done"]], none, [], true⟩ rfl

/-! ## Status-transition lemmas -/

theorem statusOf_update_features (s : SysState) (fid status : String)
    (h : (alookup s.features fid).isSome = true) :
    (alookup (updateFeatureStatus s fid status).features fid).map
      (fun g => g.status) = some status := by
  unfold updateFeatureStatus
  cases hf : alookup s.features fid with
  | none => rw [hf] at h; simp at h
  | some f => simp [alookup_aset_self]

theorem filter_isSetStatus_map_emit (evs : List AmEvent) :
    (evs.map Action.emitEvent).filter isSetStatus = [] := by
  induction evs with
  | nil => rfl
  | cons e t ih => simp [List.filter_cons, isSetStatus, ih]

/-- Comprehensive branch analysis of `executeCore` when the feature
exists: the agent outcome is surfaced unchanged, and the final status and
trace follow the run outcome. -/
theorem executeCore_spec (st : SysState) (pp fid : String) (u a : Bool)
    (ctx : Option String) (msg : String) (beh : AgentBehavior)
    (f : Feature) (hfeat : alookup st.features fid = some f) :
    (executeCore st pp fid u a ctx msg beh).agentOutcome
      = some (runAgent fid ctx (alookup st.transcripts fid) beh.msgs
          beh.streamEnd beh.sched).outcome
    ∧ agentEventsAfterInProgress fid
        (executeCore st pp fid u a ctx msg beh).trace = true
    ∧ ((runAgent fid ctx (alookup st.transcripts fid) beh.msgs beh.streamEnd
          beh.sched).outcome = none →
        statusOf (executeCore st pp fid u a ctx msg beh).state fid
          = some "waiting_approval"
        ∧ alookup (executeCore st pp fid u a ctx msg beh).state.transcripts
            fid
          = some (runAgent fid ctx (alookup st.transcripts fid) beh.msgs
              beh.streamEnd beh.sched).buffer)
    ∧ ((runAgent fid ctx (alookup st.transcripts fid) beh.msgs beh.streamEnd
          beh.sched).outcome = some .execError →
        statusOf (executeCore st pp fid u a ctx msg beh).state fid
          = some "backlog")
    ∧ ((runAgent fid ctx (alookup st.transcripts fid) beh.msgs beh.streamEnd
          beh.sched).outcome = some .abortError →
        statusOf (executeCore st pp fid u a ctx msg beh).state fid
          = some "in_progress"
        ∧ (executeCore st pp fid u a ctx msg beh).trace.filter isSetStatus
          = [.setStatus fid "in_progress"]) := by
  have hP : (alookup st.features fid).isSome = true := by simp [hfeat]
  simp only [executeCore, hfeat, transcripts_update]
  cases ho : (runAgent fid ctx (alookup st.transcripts fid) beh.msgs
      beh.streamEnd beh.sched).outcome with
  | none =>
    rw [runAgent_file_of_outcome_none fid ctx (alookup st.transcripts fid)
      beh.msgs beh.streamEnd beh.sched ho]
    refine ⟨rfl, ?_, ?_, ?_, ?_⟩
    · simp [agentEventsAfterInProgress]
    · intro _
      constructor
      · show statusOf _ fid = some "waiting_approval"
        simp only [statusOf]
        apply statusOf_update_features
        apply lookup_isSome_update
        exact hP
      · exact alookup_aset_self _ _ _
    · intro hc
      exact absurd hc (by simp)
    · intro hc
      exact absurd hc (by simp)
  | some c =>
    cases c with
    | abortError =>
      refine ⟨rfl, ?_, ?_, ?_, ?_⟩
      · simp [agentEventsAfterInProgress]
      · intro hc
        exact absurd hc (by simp)
      · intro hc
        exact absurd hc (by simp)
      · intro _
        constructor
        · show statusOf _ fid = some "in_progress"
          simp only [statusOf]
          apply statusOf_update_features
          exact hP
        · simp [List.filter_append, List.filter_cons, isSetStatus,
            filter_isSetStatus_map_emit]
    | authError =>
      refine ⟨rfl, ?_, ?_, ?_, ?_⟩
      · simp [agentEventsAfterInProgress]
      · intro hc
        exact absurd hc (by simp)
      · intro hc
        exact absurd hc (by simp)
      · intro hc
        exact absurd hc (by simp)
    | execError =>
      refine ⟨rfl, ?_, ?_, ?_, ?_⟩
      · simp [agentEventsAfterInProgress]
      · intro hc
        exact absurd hc (by simp)
      · intro _
        show statusOf _ fid = some "backlog"
        simp only [statusOf]
        apply statusOf_update_features
        apply lookup_isSome_update
        exact hP
      · intro hc
        exact absurd hc (by simp)

theorem executeFeature_fresh_eq (st : SysState) (pp fid : String)
    (u a : Bool) (beh : AgentBehavior)
    (hreg : alookup st.registry fid = none)
    (hctx : alookup st.transcripts fid = none) :
    executeFeature st pp fid u a beh
      = executeCore st pp fid u a none "Feature completed" beh := by
  unfold executeFeature
  rw [if_neg (by simp [hreg]), if_neg (by simp [hctx])]

/-- Claim C3: on a fresh `executeFeature` run (feature present, no saved
transcript, gate passed) the status is set to `in_progress` before any
agent progress/tool event is emitted; on successful stream completion the
status becomes `waiting_approval`; on a non-auth execution failure it is
reverted to `backlog`; and on cancellation the catch branch performs no
status write at all, leaving the status at its abort-time value
(`in_progress`), never `backlog`. -/
theorem executeFeature_status_transitions (st : SysState)
    (pp fid : String) (u a : Bool) (beh : AgentBehavior)
    (hreg : alookup st.registry fid = none)
    (hctx : alookup st.transcripts fid = none)
    (f : Feature) (hfeat : alookup st.features fid = some f) :
    agentEventsAfterInProgress fid
      (executeFeature st pp fid u a beh).trace = true
    ∧ ((executeFeature st pp fid u a beh).agentOutcome = some none →
        statusOf (executeFeature st pp fid u a beh).state fid
          = some "waiting_approval")
    ∧ ((executeFeature st pp fid u a beh).agentOutcome
          = some (some .execError) →
        statusOf (executeFeature st pp fid u a beh).state fid
          = some "backlog")
    ∧ ((executeFeature st pp fid u a beh).agentOutcome
          = some (some .abortError) →
        statusOf (executeFeature st pp fid u a beh).state fid
          = some "in_progress"
        ∧ (executeFeature st pp fid u a beh).trace.filter isSetStatus
          = [.setStatus fid "in_progress"]) := by
  rw [executeFeature_fresh_eq st pp fid u a beh hreg hctx]
  obtain ⟨hout, hscan, hsucc, herr, habort⟩ :=
    executeCore_spec st pp fid u a none "Feature completed" beh f hfeat
  refine ⟨hscan, ?_, ?_, ?_⟩
  · intro h
    rw [hout] at h
    exact (hsucc (Option.some_injective _ h)).1
  · intro h
    rw [hout] at h
    exact herr (Option.some_injective _ h)
  · intro h
    rw [hout] at h
    exact habort (Option.some_injective _ h)

/-- Witness for `executeFeature_status_transitions` on a concrete fresh
successful run. -/
theorem executeFeature_status_transitions_witness :
    agentEventsAfterInProgress "f1"
      (executeFeature ⟨[], [("f1", { id := "f1" })], [], ⟨[], [], []⟩, 0⟩
        "/p" "f1" false false
        ⟨[.assistant [.text "done"]], none, [], true⟩).trace = true
    ∧ ((executeFeature ⟨[], [("f1", { id := "f1" })], [], ⟨[], [], []⟩, 0⟩
        "/p" "f1" false false
        ⟨[.assistant [.text "done"]], none, [], true⟩).agentOutcome
          = some none →
        statusOf (executeFeature
          ⟨[], [("f1", { id := "f1" })], [], ⟨[], [], []⟩, 0⟩
          "/p" "f1" false false
          ⟨[.assistant [.text "done"]], none, [], true⟩).state "f1"
          = some "waiting_approval")
    ∧ ((executeFeature ⟨[], [("f1", { id := "f1" })], [], ⟨[], [], []⟩, 0⟩
        "/p" "f1" false false
        ⟨[.assistant [.text "done"]], none, [], true⟩).agentOutcome
          = some (some .execError) →
        statusOf (executeFeature
          ⟨[], [("f1", { id := "f1" })], [], ⟨[], [], []⟩, 0⟩
          "/p" "f1" false false
          ⟨[.assistant [.text "done"]], none, [], true⟩).state "f1"
          = some "backlog")
    ∧ ((executeFeature ⟨[], [("f1", { id := "f1" })], [], ⟨[], [], []⟩, 0⟩
        "/p" "f1" false false
        ⟨[.assistant [.text "done"]], none, [], true⟩).agentOutcome
          = some (some .abortError) →
        statusOf (executeFeature
          ⟨[], [("f1", { id := "f1" })], [], ⟨[], [], []⟩, 0⟩
          "/p" "f1" false false
          ⟨[.assistant [.text "done"]], none, [], true⟩).state "f1"
          = some "in_progress"
        ∧ (executeFeature ⟨[], [("f1", { id := "f1" })], [], ⟨[], [], []⟩, 0⟩
            "/p" "f1" false false
            ⟨[.assistant [.text "done"]], none, [], true⟩).trace.filter
            isSetStatus
          = [.setStatus "f1" "in_progress"]) :=
  executeFeature_status_transitions
    ⟨[], [("f1", { id := "f1" })], [], ⟨[], [], []⟩, 0⟩ "/p" "f1"
    false false ⟨[.assistant [.text "done"]], none, [], true⟩
    rfl rfl { id := "f1" } rfl

/-- Claim C9 counterexample: a feature whose transcript file exists but
is empty.  `resumeFeature` loads `T = ""`, which is falsy in JS, so the
run is seeded with an empty buffer and no separator (push.ts 1160): the
final persisted transcript is just the new output, and the claimed shape
`T ++ separator ++ rest` does not hold — the new output is not appended
after a visible separator. -/
theorem resumeFeature_empty_transcript_counterexample :
    alookup c9StateEmpty.transcripts "f1" = some ""
    ∧ alookup (resumeFeature c9StateEmpty "/p" "f1" false
        c9Behavior).state.transcripts "f1" = some "continuing the work"
    ∧ ¬ ∃ rest,
        alookup (resumeFeature c9StateEmpty "/p" "f1" false
          c9Behavior).state.transcripts "f1"
          = some (("" ++ "\n\n---\n\n## Follow-up Session\n\n") ++ rest) := by
  refine ⟨rfl, by decide, ?_⟩
  rintro ⟨rest, h⟩
  have hval : alookup (resumeFeature c9StateEmpty "/p" "f1" false
      c9Behavior).state.transcripts "f1" = some "continuing the work" := by
    decide
  rw [hval] at h
  have h2 := Option.some_injective _ h
  have hlen := congrArg jsLen h2
  simp only [jsLen, String.data_append, List.length_append] at hlen
  have hc1 : ("continuing the work".data).length = 19 := by decide
  have hc2 : (("" : String).data).length = 0 := by decide
  have hc3 : ("\n\n---\n\n## Follow-up Session\n\n".data).length = 29 := by
    decide
  rw [hc1, hc2, hc3] at hlen
  omega

/-- Claim C9 (amended): `resumeFeature` with no saved transcript behaves
exactly like a fresh `executeFeature` call (with `isAutoMode = false`);
with a saved NON-EMPTY transcript `T` it seeds the run with `T`, so on
success the persisted transcript is `T`, then the visible separator,
then the new output — prior history is never overwritten.  (An existing
but empty transcript seeds nothing: JS truthiness at push.ts 1160 treats
the empty string as falsy, so no separator is inserted — see the
counterexample.) -/
theorem resumeFeature_fresh_equiv_and_seeding (st : SysState)
    (pp fid : String) (u : Bool) (beh : AgentBehavior) :
    (alookup st.transcripts fid = none →
      resumeFeature st pp fid u beh = executeFeature st pp fid u false beh)
    ∧ (∀ T, alookup st.transcripts fid = some T →
        T ≠ "" →
        alookup st.registry fid = none →
        (resumeFeature st pp fid u beh).agentOutcome = some none →
        ∃ rest,
          alookup (resumeFeature st pp fid u beh).state.transcripts fid
            = some ((T ++ "\n\n---\n\n## Follow-up Session\n\n") ++ rest)) := by
  constructor
  · intro h
    unfold resumeFeature executeFeature
    rw [h]
    rfl
  · intro T hT hne hreg hout
    have hres : resumeFeature st pp fid u beh
        = executeCore st pp fid u false (some T)
          "Feature resumed and completed" beh := by
      unfold resumeFeature
      rw [hT]
      show executeFeatureWithContext st pp fid T u beh = _
      unfold executeFeatureWithContext
      rw [if_neg (by simp [hreg])]
    rw [hres] at hout ⊢
    cases hfeat : alookup st.features fid with
    | none =>
      simp only [executeCore, hfeat] at hout
      simp at hout
    | some f =>
      obtain ⟨houtEq, hscan, hsucc, herr, habort⟩ :=
        executeCore_spec st pp fid u false (some T)
          "Feature resumed and completed" beh f hfeat
      rw [houtEq] at hout
      obtain ⟨hstat, htrans⟩ := hsucc (Option.some_injective _ hout)
      obtain ⟨rest, hbuf⟩ := runAgent_buffer_extends fid (some T)
        (alookup st.transcripts fid) beh.msgs beh.streamEnd beh.sched
      have hseed : seedBuffer (some T)
          = T ++ "\n\n---\n\n## Follow-up Session\n\n" := by
        show (if T = "" then ""
          else T ++ "\n\n---\n\n## Follow-up Session\n\n")
          = T ++ "\n\n---\n\n## Follow-up Session\n\n"
        rw [if_neg hne]
      refine ⟨rest, ?_⟩
      rw [htrans, hbuf, hseed]

/-- Witness for `resumeFeature_fresh_equiv_and_seeding`: with no
transcript, resume equals a fresh execute; with the non-empty transcript
`"OLD"`, the final persisted transcript is `"OLD"`, the separator, then
the new output. -/
theorem resumeFeature_fresh_equiv_and_seeding_witness :
    (resumeFeature c9StateFresh "/p" "f1" false c9Behavior
      = executeFeature c9StateFresh "/p" "f1" false false c9Behavior)
    ∧ ∃ rest,
        alookup (resumeFeature c9StateSeeded "/p" "f1" false
          c9Behavior).state.transcripts "f1"
          = some (("OLD" ++ "\n\n---\n\n## Follow-up Session\n\n") ++ rest) :=
  ⟨(resumeFeature_fresh_equiv_and_seeding c9StateFresh "/p" "f1" false
      c9Behavior).1 rfl,
   (resumeFeature_fresh_equiv_and_seeding c9StateSeeded "/p" "f1" false
      c9Behavior).2 "OLD" rfl (by decide) rfl (by decide)⟩

/-- Claim C1: the registry gate is not atomic with the insert.  Under the
event-loop schedule `[A, B, A, A, B, B]` — call B runs its registry check
while call A is suspended in `await contextExists` — two concurrent
`executeFeature` calls for the same id BOTH pass the check at push.ts
126, neither throws `AlreadyRunning`, and both reach the registry insert
at push.ts 190 and run the agent.  (The `Map` registry still ends with a
single entry for the id.)  This refutes "exactly one of the two calls is
rejected" and "no await between the existence check and the insert". -/
theorem executeFeature_check_insert_race :
    raceRun "f1" ⟨[], .atCheck, .atCheck⟩
      [true, false, true, true, false, false]
      = ⟨["f1"], .running, .running⟩ := by
  decide

end Automaker
